import Mathlib

/-!
Verification of the facet filter evaluator (`src/search/facet/mod.rs`).

The development shallowly embeds the expression model, the builder's
comparison dispatch and the hierarchical range resolver
(`explore_facet_levels` / `evaluate_number_operator` / `evaluate`).
The key-value store is modelled as a sorted list of entries; the
comparand type `T` (`i64` or `f64` in the source) is an arbitrary
linearly ordered type with a least and greatest element, matching the
design assumption that endpoints are totally ordered (the builder
rejects NaN literals) and `T::min_value()` / `T::max_value()` exist.
-/

namespace Facet

/-- Rust's `std::ops::Bound`. -/
inductive RBound (T : Type) where
  | unbounded
  | included (t : T)
  | excluded (t : T)
deriving DecidableEq, Repr

/-- `FacetNumberOperator<T>` from the source. -/
inductive FacetNumberOperator (T : Type) where
  | greaterThan (v : T)
  | greaterThanOrEqual (v : T)
  | lowerThan (v : T)
  | lowerThanOrEqual (v : T)
  | equal (v : T)
  | between (l r : T)
deriving DecidableEq, Repr

/-- `FacetStringOperator` from the source. -/
inductive FacetStringOperator where
  | equal (s : String)
deriving DecidableEq, Repr

/-- `crate::facet::FacetType`: the facet type catalog entry. -/
inductive FacetType where
  | integer
  | float
  | string
deriving DecidableEq, Repr

/-- One record of the facet store for a numeric facet: the logical key
`(field_id, level, low, high)` together with the stored bitmap of
document ids.  Bitmaps are modelled as `Finset ℕ`. -/
structure Entry (T : Type) where
  fid : Nat
  level : Nat
  low : T
  high : T
  docids : Finset Nat
deriving DecidableEq

variable {T : Type} [LinearOrder T] [BoundedOrder T]

/-- The logical key of an entry. -/
def Entry.key (e : Entry T) : Nat × Nat × T × T := (e.fid, e.level, e.low, e.high)

/-- Modelled from the spec: the key codec (`FacetLevelValueI64Codec` /
`FacetLevelValueF64Codec`, not part of the excerpt) orders keys as byte
strings; per §3 the keys are the tuples `(field_id, level, low, high)`
ordered lexicographically, and restricted to a fixed `(field_id, level)`
the order coincides with ascending order of `low`. -/
def keyLt (a b : Nat × Nat × T × T) : Prop :=
  a.1 < b.1 ∨ (a.1 = b.1 ∧ (a.2.1 < b.2.1 ∨ (a.2.1 = b.2.1 ∧
    (a.2.2.1 < b.2.2.1 ∨ (a.2.2.1 = b.2.2.1 ∧ a.2.2.2 < b.2.2.2)))))

/-- Non-strict key order. -/
def keyLe (a b : Nat × Nat × T × T) : Prop :=
  keyLt a b ∨ a = b

instance (a b : Nat × Nat × T × T) : Decidable (keyLt a b) := by
  unfold keyLt; infer_instance

instance (a b : Nat × Nat × T × T) : Decidable (keyLe a b) := by
  unfold keyLe; infer_instance

/-- The lower iterator bound of the level scan (source lines 319–323):
`Included/Excluded (field_id, level, left, T::min_value())`, or no
constraint when `left` is unbounded. -/
def lowerGate (left : RBound T) (fid level : Nat) (e : Entry T) : Bool :=
  match left with
  | .included l => decide (keyLe (fid, level, l, (⊥ : T)) e.key)
  | .excluded l => decide (keyLt (fid, level, l, (⊥ : T)) e.key)
  | .unbounded => true

/-- The upper iterator bound of the level scan (source line 324):
`Included (field_id, level, T::max_value(), T::max_value())`. -/
def upperGate (fid level : Nat) (e : Entry T) : Bool :=
  decide (keyLe e.key (fid, level, (⊤ : T), (⊤ : T)))

/-- The `take_while` gate on the `high` part of each visited key
(source lines 330–336). -/
def rightGate (right : RBound T) (e : Entry T) : Bool :=
  match right with
  | .included r => decide (e.high ≤ r)
  | .excluded r => decide (e.high < r)
  | .unbounded => true

/-- Modelled from the spec: `range(txn, lower, upper)` of the store
(§6) iterates, in ascending key order, the entries whose key lies
between the bounds; composed with the source's `take_while` on the
`high` endpoint this is the scan of one level (source lines 326–337).
On a key-sorted list this is a filter followed by `takeWhile`. -/
def scanLevel (db : List (Entry T)) (fid level : Nat) (left right : RBound T) :
    List (Entry T) :=
  (db.filter (fun e => lowerGate left fid level e && upperGate fid level e)).takeWhile
    (fun e => rightGate right e)

/-- Union of the bitmaps of a list of entries (the effect of the
`output.union_with(&docids)` loop, source line 344). -/
def unionDocids (l : List (Entry T)) : Finset Nat :=
  l.foldr (fun e s => e.docids ∪ s) ∅

/-- Guard of the first match arm (source line 303): both bounds are
`Included` of the same value. -/
def exactEq : RBound T → RBound T → Bool
  | .included l, .included r => decide (l = r)
  | _, _ => false

/-- Guards of the empty-interval arms (source lines 307–310). -/
def emptyIv : RBound T → RBound T → Bool
  | .included l, .included r => decide (r < l)
  | .included l, .excluded r => decide (r ≤ l)
  | .excluded l, .excluded r => decide (r ≤ l)
  | .excluded l, .included r => decide (r ≤ l)
  | _, _ => false

/-- `FacetCondition::explore_facet_levels` (source lines 287–380).
The `&mut RoaringBitmap` accumulator is threaded explicitly: the
function returns the new value of `output`.  Store errors cannot occur
in the pure store model, so the `anyhow::Result<()>` is always `Ok`
and only the accumulator is returned. -/
def explore_facet_levels (db : List (Entry T)) (fid : Nat) (level : Nat)
    (left right : RBound T) (output : Finset Nat) : Finset Nat :=
  if h : exactEq left right = true ∧ 0 < level then
    -- If the request is an exact value we must go directly to the deepest level.
    explore_facet_levels db fid 0 left right output
  else if emptyIv left right then output
  else
    let entries := scanLevel db fid level left right
    let out1 := output ∪ unionDocids entries
    match level with
    | 0 => out1
    | deeper + 1 =>
      match entries.head?.map Entry.low, entries.getLast?.map Entry.high with
      | some left_found, some right_found =>
        let out2 :=
          if left = RBound.included left_found then out1
          else explore_facet_levels db fid deeper left (RBound.excluded left_found) out1
        if right = RBound.included right_found then out2
        else explore_facet_levels db fid deeper (RBound.excluded right_found) right out2
      | _, _ => explore_facet_levels db fid deeper left right out1
termination_by level
decreasing_by
  · exact h.2
  · omega
  · omega
  · omega

/-- Fuel-indexed twin of `explore_facet_levels`, structurally recursive
on the fuel so that concrete runs reduce inside the kernel.  The fuel
never runs out when it starts at `level + 1`
(`exploreFuel_eq_explore`). -/
def exploreFuel (db : List (Entry T)) (fid : Nat) :
    Nat → Nat → RBound T → RBound T → Finset Nat → Finset Nat
  | 0, _, _, _, output => output
  | fuel + 1, level, left, right, output =>
    if exactEq left right = true ∧ 0 < level then
      exploreFuel db fid fuel 0 left right output
    else if emptyIv left right then output
    else
      let entries := scanLevel db fid level left right
      let out1 := output ∪ unionDocids entries
      match level with
      | 0 => out1
      | deeper + 1 =>
        match entries.head?.map Entry.low, entries.getLast?.map Entry.high with
        | some left_found, some right_found =>
          let out2 :=
            if left = RBound.included left_found then out1
            else exploreFuel db fid fuel deeper left (RBound.excluded left_found) out1
          if right = RBound.included right_found then out2
          else exploreFuel db fid fuel deeper (RBound.excluded right_found) right out2
        | _, _ => exploreFuel db fid fuel deeper left right out1

/-- Any fuel strictly above the starting level runs the recursion to
completion: `exploreFuel` agrees with `explore_facet_levels`. -/
theorem exploreFuel_eq_explore (db : List (Entry T)) (fid : Nat) :
    ∀ fuel level, level < fuel → ∀ left right output,
      exploreFuel db fid fuel level left right output =
        explore_facet_levels db fid level left right output := by
  intro fuel
  induction fuel with
  | zero => intro level h; omega
  | succ f ih =>
    intro level hlt left right output
    rw [explore_facet_levels]
    by_cases h : exactEq left right = true ∧ 0 < level
    · rw [exploreFuel, if_pos h, dif_pos h]
      exact ih 0 (by omega) left right output
    · rw [exploreFuel, if_neg h, dif_neg h]
      by_cases he : emptyIv left right = true
      · simp [he]
      · simp only [Bool.not_eq_true] at he
        simp only [he, if_false]
        match level with
        | 0 => rfl
        | deeper + 1 =>
          simp only
          match (scanLevel db fid (deeper + 1) left right).head?.map Entry.low,
              (scanLevel db fid (deeper + 1) left right).getLast?.map Entry.high with
          | some lf, some rf =>
            simp only
            rw [ih deeper (by omega), ih deeper (by omega)]
          | some lf, none => simp only; rw [ih deeper (by omega)]
          | none, some rf => simp only; rw [ih deeper (by omega)]
          | none, none => simp only; rw [ih deeper (by omega)]

/-- Modelled from the spec: `get_lower_than_or_equal_to(txn, key)` of
the store (§6) returns the entry with the largest key `≤ key`, if any.
On a key-sorted list this is the last entry whose key passes the bound.
Composed with the source's `and_then` (lines 407–410) this discovers
the maximum level of a field, or `none`. -/
def biggestLevel (db : List (Entry T)) (fid : Nat) : Option Nat :=
  ((db.filter (fun e => decide (keyLe e.key (fid, 255, (⊤ : T), (⊤ : T))))).getLast?).bind
    (fun e => if e.fid = fid then some e.level else none)

/-- `FacetCondition::evaluate_number_operator` (source lines 382–420). -/
def evaluate_number_operator (db : List (Entry T)) (fid : Nat)
    (operator : FacetNumberOperator T) : Finset Nat :=
  let lr : RBound T × RBound T :=
    match operator with
    | .greaterThan v => (.excluded v, .included (⊤ : T))
    | .greaterThanOrEqual v => (.included v, .included (⊤ : T))
    | .lowerThan v => (.included (⊥ : T), .excluded v)
    | .lowerThanOrEqual v => (.included (⊥ : T), .included v)
    | .equal v => (.included v, .included v)
    | .between l r => (.included l, .included r)
  match biggestLevel db fid with
  | some level => explore_facet_levels db fid level lr.1 lr.2 ∅
  | none => ∅

/-- `FacetCondition::evaluate_string_operator` (source lines 422–437);
the string sub-database is modelled as a partial map from
`(field_id, value)` to a bitmap. -/
def evaluate_string_operator (sdb : Nat → String → Option (Finset Nat))
    (fid : Nat) : FacetStringOperator → Finset Nat
  | .equal s =>
    match sdb fid s with
    | some docids => docids
    | none => ∅

/-- `FacetCondition` from the source: the typed expression tree.  `TI`
and `TF` stand for `i64` and `f64`. -/
inductive FacetCondition (TI TF : Type) where
  | operatorI64 (fid : Nat) (op : FacetNumberOperator TI)
  | operatorF64 (fid : Nat) (op : FacetNumberOperator TF)
  | operatorString (fid : Nat) (op : FacetStringOperator)
  | or (lhs rhs : FacetCondition TI TF)
  | and (lhs rhs : FacetCondition TI TF)
  | not (op : FacetCondition TI TF)

/-- The parts of `crate::Index` that `evaluate` reads: the facet
database viewed through the integer codec, through the float codec,
the string view, and `documents_ids`. -/
structure Index (TI TF : Type) where
  dbI : List (Entry TI)
  dbF : List (Entry TF)
  sdb : Nat → String → Option (Finset Nat)
  documents_ids : Finset Nat

variable {TI TF : Type} [LinearOrder TI] [BoundedOrder TI] [LinearOrder TF] [BoundedOrder TF]

/-- `FacetCondition::evaluate` (source lines 439–475). -/
def FacetCondition.evaluate (index : Index TI TF) :
    FacetCondition TI TF → Finset Nat
  | .operatorI64 fid op => evaluate_number_operator index.dbI fid op
  | .operatorF64 fid op => evaluate_number_operator index.dbF fid op
  | .operatorString fid op => evaluate_string_operator index.sdb fid op
  | .or lhs rhs => lhs.evaluate index ∪ rhs.evaluate index
  | .and lhs rhs => lhs.evaluate index ∩ rhs.evaluate index
  | .not op => index.documents_ids \ op.evaluate index

/-! ## Spec-side definitions

These follow the words of the spec, to be compared against the
source-side definitions above. -/

/-- Written from the spec's words: the operator-normalization table of
§4.2, each operator mapped to `[left, right]` with the type's extrema
as sentinel endpoints. -/
def specOperatorInterval : FacetNumberOperator T → RBound T × RBound T
  | .greaterThan v => (.excluded v, .included (⊤ : T))
  | .greaterThanOrEqual v => (.included v, .included (⊤ : T))
  | .lowerThan v => (.included (⊥ : T), .excluded v)
  | .lowerThanOrEqual v => (.included (⊥ : T), .included v)
  | .equal v => (.included v, .included v)
  | .between l r => (.included l, .included r)

/-- Written from the spec's words: `v op rhs` for a numeric operator. -/
def numSatisfies : FacetNumberOperator T → T → Bool
  | .greaterThan v, x => decide (v < x)
  | .greaterThanOrEqual v, x => decide (v ≤ x)
  | .lowerThan v, x => decide (x < v)
  | .lowerThanOrEqual v, x => decide (x ≤ v)
  | .equal v, x => decide (x = v)
  | .between l r, x => decide (l ≤ x) && decide (x ≤ r)

/-- Written from the spec's words: naive flat evaluation of a numeric
operator over level 0 — the union of the level-0 bitmaps of exactly the
entries of the field whose value satisfies the operator (§8, invariant
1). -/
def flatNumberEval (db : List (Entry T)) (fid : Nat)
    (operator : FacetNumberOperator T) : Finset Nat :=
  unionDocids (db.filter (fun e =>
    decide (e.fid = fid) && decide (e.level = 0) && numSatisfies operator e.low))

/-! ## Data-model invariants (§3)

Decidable renderings of the level invariants, used as hypotheses and
evaluated on concrete stores. -/

/-- The store is strictly sorted by key (keys are unique and in
ascending byte order). -/
def sortedByKey (db : List (Entry T)) : Prop :=
  db.Pairwise (fun a b => keyLt a.key b.key)

instance (db : List (Entry T)) : Decidable (sortedByKey db) := by
  unfold sortedByKey; infer_instance

/-- Every entry has `low ≤ high`, and level-0 entries are point
entries (`low = high`). -/
def pointLevelZero (db : List (Entry T)) : Bool :=
  db.all (fun e => decide (e.low ≤ e.high) &&
    (decide (e.level ≠ 0) || decide (e.low = e.high)))

/-- Each entry at level `ℓ+1` carries exactly the union of the bitmaps
of the level-`ℓ` entries of the same field contained in its range. -/
def summarizesBelow (db : List (Entry T)) : Bool :=
  db.all (fun e =>
    match e.level with
    | 0 => true
    | l + 1 => decide (e.docids = unionDocids (db.filter (fun e2 =>
        decide (e2.fid = e.fid) && decide (e2.level = l) &&
        decide (e.low ≤ e2.low) && decide (e2.high ≤ e.high)))))

/-- Whenever the next level up exists for the field, every entry is
contained in some entry of that level (groups cover the level below). -/
def coveredAbove (db : List (Entry T)) : Bool :=
  db.all (fun e =>
    db.all (fun e2 => !(decide (e2.fid = e.fid) && decide (e2.level = e.level + 1))) ||
    db.any (fun e2 => decide (e2.fid = e.fid) && decide (e2.level = e.level + 1) &&
      decide (e2.low ≤ e.low) && decide (e.high ≤ e2.high)))

/-- Distinct entries of the same field and level have disjoint value
ranges (groups do not overlap). -/
def nonOverlapping (db : List (Entry T)) : Prop :=
  db.Pairwise (fun a b =>
    ¬(a.fid = b.fid ∧ a.level = b.level) ∨ a.high < b.low ∨ b.high < a.low)

instance (db : List (Entry T)) : Decidable (nonOverlapping db) := by
  unfold nonOverlapping; infer_instance

/-- For every field and populated level, the union of the bitmaps of
that level equals the union at level 0. -/
def levelUnionsEqual (db : List (Entry T)) : Bool :=
  db.all (fun e =>
    decide (unionDocids (db.filter (fun e2 =>
        decide (e2.fid = e.fid) && decide (e2.level = e.level))) =
      unionDocids (db.filter (fun e2 =>
        decide (e2.fid = e.fid) && decide (e2.level = 0)))))

/-- The conjunction of the §3 level invariants of the data model. -/
def levelInvariants (db : List (Entry T)) : Prop :=
  sortedByKey db ∧ pointLevelZero db = true ∧ summarizesBelow db = true ∧
    coveredAbove db = true ∧ nonOverlapping db ∧ levelUnionsEqual db = true

instance (db : List (Entry T)) : Decidable (levelInvariants db) := by
  unfold levelInvariants; infer_instance

/-! ## The expression builder (source lines 50–282)

The builder walks the parsed grammar tree.  A comparison node of the
tree is modelled by the pieces the builder reads from it: its own
source span, the attribute name with its span, and the one or two
literal values.  Literal parsing (`str::parse::<i64/f64>`) is an
external collaborator and is passed in as `parseI` / `parseF`; a parse
failure is propagated by `?` without a span, as in the source. -/

/-- A source span, as carried by the parser's pairs. -/
structure Span where
  startPos : Nat
  endPos : Nat
deriving DecidableEq

/-- A builder diagnostic.  Errors built with
`PestError::new_from_span` carry the offending span; errors propagated
from literal parsing carry none. -/
structure BuilderError where
  message : String
  span : Option Span
deriving DecidableEq

/-- What the builder reads from one comparison node of the grammar
tree: the node's span, the attribute token and its span, and the
literal tokens (`value2` is only consumed by `between`). -/
structure ComparisonItem where
  span : Span
  key : String
  keySpan : Span
  value1 : String
  value2 : String
deriving DecidableEq

/-- `FieldsIdsMap`: name ↔ id, modelled as an association list. -/
def fimId (fim : List (Nat × String)) (name : String) : Option Nat :=
  (fim.find? (fun p => p.2 = name)).map Prod.fst

/-- The faceted-fields catalog lookup. -/
def ffGet (ff : List (Nat × FacetType)) (fid : Nat) : Option FacetType :=
  (ff.find? (fun p => p.1 = fid)).map Prod.snd

/-- `get_field_id_facet_type` (source lines 50–90): resolve the
attribute, then its facet type, each failure carrying the key's span. -/
def get_field_id_facet_type (fim : List (Nat × String)) (ff : List (Nat × FacetType))
    (key : String) (keySpan : Span) : Except BuilderError (Nat × FacetType) :=
  match fimId fim key with
  | none => .error
      { message := "attribute `" ++ key ++ "` not found, available attributes are: " ++
          String.intercalate ", " (fim.map Prod.snd),
        span := some keySpan }
  | some fid =>
    match ffGet ff fid with
    | none => .error
        { message := "attribute `" ++ key ++ "` is not faceted, available faceted attributes are: " ++
            String.intercalate ", " ((ff.map Prod.fst).filterMap (fun id =>
              (fim.find? (fun p => p.1 = id)).map Prod.snd)),
          span := some keySpan }
    | some facetType => .ok (fid, facetType)

variable {TI TF : Type}

/-- The error built for an ordering operator applied to a string facet
(source lines 158–165 and analogues). -/
def invalidStringOperatorError (span : Span) : BuilderError :=
  { message := "invalid operator on a faceted string", span := some span }

/-- `FacetCondition::between` (source lines 136–167). -/
def FacetCondition.between (fim : List (Nat × String)) (ff : List (Nat × FacetType))
    (parseI : String → Option TI) (parseF : String → Option TF)
    (item : ComparisonItem) : Except BuilderError (FacetCondition TI TF) :=
  match get_field_id_facet_type fim ff item.key item.keySpan with
  | .error e => .error e
  | .ok (fid, facetType) =>
    match facetType with
    | .integer =>
      match parseI item.value1 with
      | none => .error { message := "invalid digit found in string", span := none }
      | some lvalue =>
        match parseI item.value2 with
        | none => .error { message := "invalid digit found in string", span := none }
        | some rvalue => .ok (.operatorI64 fid (.between lvalue rvalue))
    | .float =>
      match parseF item.value1 with
      | none => .error { message := "invalid float literal", span := none }
      | some lvalue =>
        match parseF item.value2 with
        | none => .error { message := "invalid float literal", span := none }
        | some rvalue => .ok (.operatorF64 fid (.between lvalue rvalue))
    | .string => .error (invalidStringOperatorError item.span)

/-- `FacetCondition::equal` (source lines 169–185). -/
def FacetCondition.equal (fim : List (Nat × String)) (ff : List (Nat × FacetType))
    (parseI : String → Option TI) (parseF : String → Option TF)
    (item : ComparisonItem) : Except BuilderError (FacetCondition TI TF) :=
  match get_field_id_facet_type fim ff item.key item.keySpan with
  | .error e => .error e
  | .ok (fid, facetType) =>
    match facetType with
    | .integer =>
      match parseI item.value1 with
      | none => .error { message := "invalid digit found in string", span := none }
      | some v => .ok (.operatorI64 fid (.equal v))
    | .float =>
      match parseF item.value1 with
      | none => .error { message := "invalid float literal", span := none }
      | some v => .ok (.operatorF64 fid (.equal v))
    | .string => .ok (.operatorString fid (.equal item.value1))

/-- `FacetCondition::greater_than` (source lines 187–209). -/
def FacetCondition.greater_than (fim : List (Nat × String)) (ff : List (Nat × FacetType))
    (parseI : String → Option TI) (parseF : String → Option TF)
    (item : ComparisonItem) : Except BuilderError (FacetCondition TI TF) :=
  match get_field_id_facet_type fim ff item.key item.keySpan with
  | .error e => .error e
  | .ok (fid, facetType) =>
    match facetType with
    | .integer =>
      match parseI item.value1 with
      | none => .error { message := "invalid digit found in string", span := none }
      | some v => .ok (.operatorI64 fid (.greaterThan v))
    | .float =>
      match parseF item.value1 with
      | none => .error { message := "invalid float literal", span := none }
      | some v => .ok (.operatorF64 fid (.greaterThan v))
    | .string => .error (invalidStringOperatorError item.span)

/-- `FacetCondition::greater_than_or_equal` (source lines 211–233). -/
def FacetCondition.greater_than_or_equal (fim : List (Nat × String)) (ff : List (Nat × FacetType))
    (parseI : String → Option TI) (parseF : String → Option TF)
    (item : ComparisonItem) : Except BuilderError (FacetCondition TI TF) :=
  match get_field_id_facet_type fim ff item.key item.keySpan with
  | .error e => .error e
  | .ok (fid, facetType) =>
    match facetType with
    | .integer =>
      match parseI item.value1 with
      | none => .error { message := "invalid digit found in string", span := none }
      | some v => .ok (.operatorI64 fid (.greaterThanOrEqual v))
    | .float =>
      match parseF item.value1 with
      | none => .error { message := "invalid float literal", span := none }
      | some v => .ok (.operatorF64 fid (.greaterThanOrEqual v))
    | .string => .error (invalidStringOperatorError item.span)

/-- `FacetCondition::lower_than` (source lines 235–257). -/
def FacetCondition.lower_than (fim : List (Nat × String)) (ff : List (Nat × FacetType))
    (parseI : String → Option TI) (parseF : String → Option TF)
    (item : ComparisonItem) : Except BuilderError (FacetCondition TI TF) :=
  match get_field_id_facet_type fim ff item.key item.keySpan with
  | .error e => .error e
  | .ok (fid, facetType) =>
    match facetType with
    | .integer =>
      match parseI item.value1 with
      | none => .error { message := "invalid digit found in string", span := none }
      | some v => .ok (.operatorI64 fid (.lowerThan v))
    | .float =>
      match parseF item.value1 with
      | none => .error { message := "invalid float literal", span := none }
      | some v => .ok (.operatorF64 fid (.lowerThan v))
    | .string => .error (invalidStringOperatorError item.span)

/-- `FacetCondition::lower_than_or_equal` (source lines 259–281). -/
def FacetCondition.lower_than_or_equal (fim : List (Nat × String)) (ff : List (Nat × FacetType))
    (parseI : String → Option TI) (parseF : String → Option TF)
    (item : ComparisonItem) : Except BuilderError (FacetCondition TI TF) :=
  match get_field_id_facet_type fim ff item.key item.keySpan with
  | .error e => .error e
  | .ok (fid, facetType) =>
    match facetType with
    | .integer =>
      match parseI item.value1 with
      | none => .error { message := "invalid digit found in string", span := none }
      | some v => .ok (.operatorI64 fid (.lowerThanOrEqual v))
    | .float =>
      match parseF item.value1 with
      | none => .error { message := "invalid float literal", span := none }
      | some v => .ok (.operatorF64 fid (.lowerThanOrEqual v))
    | .string => .error (invalidStringOperatorError item.span)

/-- The comparison rules of the grammar that `from_pairs` dispatches on
(source lines 114–120). -/
inductive ComparisonRule where
  | between
  | eq
  | neq
  | greater
  | geq
  | less
  | leq
deriving DecidableEq

/-- The comparison-leaf dispatch of `FacetCondition::from_pairs`
(source lines 113–125): each rule calls the matching builder, and
`neq` wraps the result of `equal` in `Not`. -/
def FacetCondition.fromComparison (fim : List (Nat × String)) (ff : List (Nat × FacetType))
    (parseI : String → Option TI) (parseF : String → Option TF)
    (rule : ComparisonRule) (item : ComparisonItem) :
    Except BuilderError (FacetCondition TI TF) :=
  match rule with
  | .between => FacetCondition.between fim ff parseI parseF item
  | .eq => FacetCondition.equal fim ff parseI parseF item
  | .neq => (FacetCondition.equal fim ff parseI parseF item).map (fun c => .not c)
  | .greater => FacetCondition.greater_than fim ff parseI parseF item
  | .geq => FacetCondition.greater_than_or_equal fim ff parseI parseF item
  | .less => FacetCondition.lower_than fim ff parseI parseF item
  | .leq => FacetCondition.lower_than_or_equal fim ff parseI parseF item

/-! ## Shared lemmas about the resolver -/

/-- An interval that is empty under its endpoint kinds makes
`explore_facet_levels` return the accumulator unchanged. -/
theorem explore_of_emptyIv (db : List (Entry T)) (fid level : Nat)
    (left right : RBound T) (output : Finset Nat)
    (h : emptyIv left right = true) :
    explore_facet_levels db fid level left right output = output := by
  have hx : ¬(exactEq left right = true ∧ 0 < level) := by
    rintro ⟨hx, -⟩
    rcases left with _ | l | l <;> rcases right with _ | r | r <;>
      simp [exactEq, emptyIv] at hx h
    exact absurd h (by simp [hx])
  rw [explore_facet_levels, dif_neg hx, if_pos h]

/-- `evaluate_number_operator` factors through the spec's
normalization table. -/
theorem evalNumber_normalized (db : List (Entry T)) (fid : Nat)
    (op : FacetNumberOperator T) :
    evaluate_number_operator db fid op =
      match biggestLevel db fid with
      | some level =>
        explore_facet_levels db fid level (specOperatorInterval op).1
          (specOperatorInterval op).2 ∅
      | none => ∅ := by
  cases op <;> rfl

/-- Computable form of `evaluate_number_operator`: the descent run with
fuel `level + 1`. -/
theorem evalNumber_fuel (db : List (Entry T)) (fid : Nat)
    (op : FacetNumberOperator T) :
    evaluate_number_operator db fid op =
      match biggestLevel db fid with
      | some level =>
        exploreFuel db fid (level + 1) level (specOperatorInterval op).1
          (specOperatorInterval op).2 ∅
      | none => ∅ := by
  rw [evalNumber_normalized]
  cases biggestLevel db fid with
  | none => rfl
  | some level =>
    simp only
    rw [exploreFuel_eq_explore db fid (level + 1) level (by omega)]

/-! ## A concrete store used as witness input

Field `0` over `Fin 8`, four indexed values `0, 1, 2, 3` carried by
documents `10, 11, 12, 13`, and one summary level grouping them in
pairs.  It satisfies every §3 level invariant. -/

/-- A small two-level facet store. -/
def exDb : List (Entry (Fin 8)) :=
  [⟨0, 0, 0, 0, {10}⟩, ⟨0, 0, 1, 1, {11}⟩, ⟨0, 0, 2, 2, {12}⟩, ⟨0, 0, 3, 3, {13}⟩,
   ⟨0, 1, 0, 1, {10, 11}⟩, ⟨0, 1, 2, 3, {12, 13}⟩]

/-! ## C4: empty intervals -/

/-- **C4.** If the query interval is empty under its endpoint kinds,
`explore_facet_levels` returns successfully without adding any
document id; consequently `BETWEEN(l, r)` with `l > r`, `GT(T::MAX)`
and `LT(T::MIN)` each evaluate to the empty bitmap. -/
theorem c4_empty_interval (db : List (Entry T)) (fid : Nat) :
    (∀ (level : Nat) (left right : RBound T) (output : Finset Nat),
        emptyIv left right = true →
        explore_facet_levels db fid level left right output = output) ∧
    (∀ l r : T, r < l →
        evaluate_number_operator db fid (FacetNumberOperator.between l r) = ∅) ∧
    evaluate_number_operator db fid (FacetNumberOperator.greaterThan (⊤ : T)) = ∅ ∧
    evaluate_number_operator db fid (FacetNumberOperator.lowerThan (⊥ : T)) = ∅ := by
  refine ⟨fun level left right output h => explore_of_emptyIv db fid level left right output h,
    fun l r hlr => ?_, ?_, ?_⟩ <;> rw [evalNumber_normalized]
  · cases biggestLevel db fid with
    | none => rfl
    | some level =>
      exact explore_of_emptyIv db fid level _ _ ∅ (by simp [emptyIv, specOperatorInterval, hlr])
  · cases biggestLevel db fid with
    | none => rfl
    | some level =>
      exact explore_of_emptyIv db fid level _ _ ∅ (by simp [emptyIv, specOperatorInterval])
  · cases biggestLevel db fid with
    | none => rfl
    | some level =>
      exact explore_of_emptyIv db fid level _ _ ∅ (by simp [emptyIv, specOperatorInterval])

/-- Witness for C4 at concrete inputs. -/
theorem c4_witness :
    (emptyIv (RBound.excluded (3 : Fin 8)) (RBound.excluded 3) = true ∧
      explore_facet_levels exDb 0 1 (RBound.excluded 3) (RBound.excluded 3) {5} = {5}) ∧
    ((2 : Fin 8) < 3 ∧
      evaluate_number_operator exDb 0 (FacetNumberOperator.between 3 2) = ∅) :=
  ⟨⟨by decide, (c4_empty_interval exDb 0).1 1 _ _ {5} (by decide)⟩,
   ⟨by decide, (c4_empty_interval exDb 0).2.1 3 2 (by decide)⟩⟩

/-! ## C5: operator normalization -/

/-- **C5.** `evaluate_number_operator` normalizes every numeric
operator to exactly the interval of the spec's table (§4.2) before
starting the descent. -/
theorem c5_operator_normalization (db : List (Entry T)) (fid : Nat)
    (op : FacetNumberOperator T) :
    evaluate_number_operator db fid op =
      match biggestLevel db fid with
      | some level =>
        explore_facet_levels db fid level (specOperatorInterval op).1
          (specOperatorInterval op).2 ∅
      | none => ∅ := by
  cases op <;> rfl

/-! ## C6: combinator equations -/

variable {TI' TF' : Type} [LinearOrder TI'] [BoundedOrder TI'] [LinearOrder TF'] [BoundedOrder TF']

/-- **C6.** `evaluate` satisfies the combinator equations: OR is
bitmap union, AND is intersection, and NOT is the document universe
minus the sub-result. -/
theorem c6_combinators (index : Index TI' TF') (x y : FacetCondition TI' TF') :
    (FacetCondition.or x y).evaluate index = x.evaluate index ∪ y.evaluate index ∧
    (FacetCondition.and x y).evaluate index = x.evaluate index ∩ y.evaluate index ∧
    (FacetCondition.not x).evaluate index = index.documents_ids \ x.evaluate index :=
  ⟨rfl, rfl, rfl⟩

/-! ## C8: termination and depth bound -/

/-- **C8.** The recursion of `explore_facet_levels` is bounded: every
call either strictly decreases the level or is the one-shot restart to
level 0, so running the descent with any fuel of at least `level + 1`
frames computes the (total) function. -/
theorem c8_depth_bound (db : List (Entry T)) (fid level : Nat)
    (left right : RBound T) (output : Finset Nat) (fuel : Nat)
    (hfuel : level + 1 ≤ fuel) :
    exploreFuel db fid fuel level left right output =
      explore_facet_levels db fid level left right output :=
  exploreFuel_eq_explore db fid fuel level (by omega) left right output

/-- Witness for C8 at a concrete input: fuel `2` suffices at level `1`. -/
theorem c8_witness :
    1 + 1 ≤ 2 ∧
    exploreFuel exDb 0 2 1 (RBound.excluded 0) (RBound.included 7) ∅ =
      explore_facet_levels exDb 0 1 (RBound.excluded 0) (RBound.included 7) ∅ :=
  ⟨by decide, c8_depth_bound exDb 0 1 (RBound.excluded 0) (RBound.included 7) ∅ 2 (by decide)⟩

/-! ## C10: the accumulator only grows -/

/-- **C10.** `explore_facet_levels` only ever unions stored bitmaps
into its accumulator: on every path (early exit, restart, boundary
refinement, found-nothing descent) the returned bitmap is a superset
of the initial one. -/
theorem c10_output_monotone :
    ∀ (level : Nat) (db : List (Entry T)) (fid : Nat) (left right : RBound T)
      (output : Finset Nat),
      output ⊆ explore_facet_levels db fid level left right output := by
  intro level
  induction level using Nat.strong_induction_on with
  | _ level ih =>
    intro db fid left right output
    rw [explore_facet_levels]
    by_cases h : exactEq left right = true ∧ 0 < level
    · rw [dif_pos h]
      exact ih 0 h.2 db fid left right output
    · rw [dif_neg h]
      by_cases he : emptyIv left right = true
      · rw [if_pos he]
      · rw [if_neg he]
        match level with
        | 0 => exact Finset.subset_union_left
        | deeper + 1 =>
          simp only
          split
          · next lf rf _ _ =>
            have h2 : (output ∪ unionDocids (scanLevel db fid (deeper + 1) left right)) ⊆
                (if left = RBound.included lf then
                  output ∪ unionDocids (scanLevel db fid (deeper + 1) left right)
                else explore_facet_levels db fid deeper left (RBound.excluded lf)
                  (output ∪ unionDocids (scanLevel db fid (deeper + 1) left right))) := by
              split
              · exact Finset.Subset.refl _
              · exact ih deeper (by omega) db fid left (RBound.excluded lf) _
            split
            · exact Finset.subset_union_left.trans h2
            · exact (Finset.subset_union_left.trans h2).trans
                (ih deeper (by omega) db fid (RBound.excluded rf) right _)
          · next _ _ _ =>
            exact Finset.subset_union_left.trans (ih deeper (by omega) db fid left right _)

/-! ## C2: boundary refinement -/

/-- The direct recursive invocations `explore_facet_levels` performs,
read off its control flow (source lines 301–377): the one-shot
restart, the left/right boundary refinements, or the found-nothing
descent, as `(level, left, right)` triples in call order. -/
def directCalls (db : List (Entry T)) (fid level : Nat)
    (left right : RBound T) : List (Nat × RBound T × RBound T) :=
  if exactEq left right = true ∧ 0 < level then [(0, left, right)]
  else if emptyIv left right then []
  else
    match level with
    | 0 => []
    | deeper + 1 =>
      let entries := scanLevel db fid (deeper + 1) left right
      match entries.head?.map Entry.low, entries.getLast?.map Entry.high with
      | some left_found, some right_found =>
        (if left = RBound.included left_found then []
         else [(deeper, left, RBound.excluded left_found)]) ++
        (if right = RBound.included right_found then []
         else [(deeper, RBound.excluded right_found, right)])
      | _, _ => [(deeper, left, right)]

/-- The bitmaps the current activation unions directly (nothing on the
restart and empty-interval paths, the scanned summaries otherwise). -/
def scanContribution (db : List (Entry T)) (fid level : Nat)
    (left right : RBound T) : Finset Nat :=
  if exactEq left right = true ∧ 0 < level then ∅
  else if emptyIv left right then ∅
  else unionDocids (scanLevel db fid level left right)

/-- `directCalls` is the true instrumentation of
`explore_facet_levels`: one activation unions its scan contribution
and then runs exactly the recorded recursive calls, in order. -/
theorem explore_eq_foldl_directCalls (db : List (Entry T)) (fid level : Nat)
    (left right : RBound T) (output : Finset Nat) :
    explore_facet_levels db fid level left right output =
      (directCalls db fid level left right).foldl
        (fun o c => explore_facet_levels db fid c.1 c.2.1 c.2.2 o)
        (output ∪ scanContribution db fid level left right) := by
  rw [explore_facet_levels, directCalls.eq_def, scanContribution.eq_def]
  by_cases h : exactEq left right = true ∧ 0 < level
  · rw [dif_pos h, if_pos h, if_pos h]
    simp
  · rw [dif_neg h, if_neg h, if_neg h]
    by_cases he : emptyIv left right = true
    · simp [he]
    · simp only [he, Bool.false_eq_true, if_false]
      match level with
      | 0 => simp
      | deeper + 1 =>
        simp only
        split
        · next lf rf _ _ =>
          by_cases hL : left = RBound.included lf <;>
            by_cases hR : right = RBound.included rf <;> simp [hL, hR]
        · next _ _ _ => simp

/-- **C2.** After a scan of level `deeper + 1` (no restart, non-empty
interval): the left refinement `[left, Excluded first_low)` is issued
iff `left ≠ Included first_low`, the right refinement
`(Excluded last_high, right]` iff `right ≠ Included last_high`; if the
scan visited no key there is exactly one recursion with the unchanged
interval; and an interval exactly matching the single scanned summary
returns that summary's bitmap with no deeper recursion. -/
theorem c2_boundary_refinement (db : List (Entry T)) (fid deeper : Nat)
    (left right : RBound T) (output : Finset Nat)
    (hx : exactEq left right = false) (he : emptyIv left right = false) :
    (explore_facet_levels db fid (deeper + 1) left right output =
      (directCalls db fid (deeper + 1) left right).foldl
        (fun o c => explore_facet_levels db fid c.1 c.2.1 c.2.2 o)
        (output ∪ unionDocids (scanLevel db fid (deeper + 1) left right))) ∧
    (∀ lf rf,
      (scanLevel db fid (deeper + 1) left right).head?.map Entry.low = some lf →
      (scanLevel db fid (deeper + 1) left right).getLast?.map Entry.high = some rf →
      directCalls db fid (deeper + 1) left right =
        (if left = RBound.included lf then []
         else [(deeper, left, RBound.excluded lf)]) ++
        (if right = RBound.included rf then []
         else [(deeper, RBound.excluded rf, right)])) ∧
    (scanLevel db fid (deeper + 1) left right = [] →
      directCalls db fid (deeper + 1) left right = [(deeper, left, right)] ∧
      explore_facet_levels db fid (deeper + 1) left right output =
        explore_facet_levels db fid deeper left right output) ∧
    (∀ e : Entry T,
      scanLevel db fid (deeper + 1) left right = [e] →
      left = RBound.included e.low → right = RBound.included e.high →
      directCalls db fid (deeper + 1) left right = [] ∧
      explore_facet_levels db fid (deeper + 1) left right output =
        output ∪ e.docids) := by
  have hg : ¬(exactEq left right = true ∧ 0 < deeper + 1) := by simp [hx]
  refine ⟨?_, ?_, ?_, ?_⟩
  · rw [explore_eq_foldl_directCalls, scanContribution, if_neg hg, if_neg (by simp [he])]
  · intro lf rf hh hl
    rw [directCalls.eq_def, if_neg hg, if_neg (by simp [he])]
    simp only [hh, hl]
  · intro hnil
    constructor
    · rw [directCalls.eq_def, if_neg hg, if_neg (by simp [he])]
      simp only [hnil, List.head?_nil, List.getLast?_nil, Option.map_none']
    · rw [explore_facet_levels, dif_neg hg, if_neg (by simp [he])]
      simp only [hnil, List.head?_nil, List.getLast?_nil, Option.map_none']
      simp [unionDocids]
  · intro e hone hL hR
    constructor
    · rw [directCalls.eq_def, if_neg hg, if_neg (by simp [he])]
      simp only [hone, List.head?_cons, List.getLast?_singleton, Option.map_some']
      simp [hL, hR]
    · rw [explore_facet_levels, dif_neg hg, if_neg (by simp [he])]
      simp only [hone, List.head?_cons, List.getLast?_singleton, Option.map_some']
      simp [hL, hR, unionDocids]

/-- Witness for C2 at a concrete input: level 1 of the example store,
query `(Excluded 0, Included 3]`; the scan finds both summaries
(`first_low = 0`, `last_high = 3`), the left bound is not
`Included 0`, so exactly the left refinement is issued, and `right =
Included 3 = Included last_high` suppresses the right refinement. -/
theorem c2_witness :
    exactEq (RBound.excluded (0 : Fin 8)) (RBound.included 3) = false ∧
    emptyIv (RBound.excluded (0 : Fin 8)) (RBound.included 3) = false ∧
    ((scanLevel exDb 0 1 (RBound.excluded 0) (RBound.included 3)).head?.map Entry.low =
      some 0) ∧
    ((scanLevel exDb 0 1 (RBound.excluded 0) (RBound.included 3)).getLast?.map Entry.high =
      some 3) ∧
    directCalls exDb 0 1 (RBound.excluded 0) (RBound.included 3) =
      (if RBound.excluded (0 : Fin 8) = RBound.included 0 then []
       else [(0, RBound.excluded (0 : Fin 8), RBound.excluded 0)]) ++
      (if RBound.included (3 : Fin 8) = RBound.included 3 then []
       else [(0, RBound.excluded (3 : Fin 8), RBound.included 3)]) := by
  refine ⟨by decide, by decide, by decide, by decide, ?_⟩
  exact (c2_boundary_refinement exDb 0 0 (RBound.excluded 0) (RBound.included 3) ∅
    (by decide) (by decide)).2.1 0 3 (by decide) (by decide)

/-! ## C7: discovery of the maximum level -/

/-- In a `Pairwise`-ordered list every member is the last element or
related to it. -/
theorem pairwise_rel_getLast {α : Type} {R : α → α → Prop} :
    ∀ {l : List α}, l.Pairwise R → ∀ {x}, x ∈ l → ∀ {y}, l.getLast? = some y →
      x = y ∨ R x y := by
  intro l
  induction l with
  | nil => intro _ x hx; exact absurd hx (List.not_mem_nil x)
  | cons a t ih =>
    intro hp x hx y hy
    match t with
    | [] =>
      simp at hy hx
      subst hy; subst hx
      exact Or.inl rfl
    | b :: t' =>
      rw [List.getLast?_cons_cons] at hy
      rcases List.mem_cons.mp hx with rfl | hx'
      · exact Or.inr ((List.pairwise_cons.mp hp).1 y (List.mem_of_mem_getLast? hy))
      · exact ih (List.pairwise_cons.mp hp).2 hx' hy

/-- Any entry of a smaller field, or of the queried field with a level
that fits in a `u8`, lies at or below the probe key
`(field_id, 255, T::MAX, T::MAX)`. -/
theorem keyLe_probe (fid : Nat) (e : Entry T)
    (h : e.fid < fid ∨ (e.fid = fid ∧ e.level ≤ 255)) :
    keyLe e.key (fid, 255, (⊤ : T), (⊤ : T)) := by
  rcases h with h | ⟨hf, hl⟩
  · exact Or.inl (Or.inl h)
  · rcases Nat.lt_or_eq_of_le hl with hl | hl
    · exact Or.inl (Or.inr ⟨hf, Or.inl hl⟩)
    · rcases lt_or_eq_of_le (le_top (a := e.low)) with h2 | h2
      · exact Or.inl (Or.inr ⟨hf, Or.inr ⟨hl, Or.inl h2⟩⟩)
      · rcases lt_or_eq_of_le (le_top (a := e.high)) with h3 | h3
        · exact Or.inl (Or.inr ⟨hf, Or.inr ⟨hl, Or.inr ⟨h2, h3⟩⟩⟩)
        · exact Or.inr (by simp [Entry.key, Prod.ext_iff, hf, hl, h2, h3])

/-- A key at or below the probe belongs to a field at or below the
queried one. -/
theorem fid_le_of_keyLe_probe (fid : Nat) (e : Entry T)
    (h : keyLe e.key (fid, 255, (⊤ : T), (⊤ : T))) : e.fid ≤ fid := by
  rcases h with h | h
  · rcases h with h | ⟨h, -⟩
    · exact Nat.le_of_lt h
    · exact Nat.le_of_eq h
  · exact Nat.le_of_eq (congrArg Prod.fst h)

/-- On a sorted store that contains an entry of the field (with a
`u8` level), the probe finds an entry of the field carrying the
maximum level among the field's `u8`-levelled entries. -/
theorem biggestLevel_some_of_mem (db : List (Entry T)) (fid : Nat)
    (hs : sortedByKey db) {e0 : Entry T} (he0 : e0 ∈ db) (hf : e0.fid = fid)
    (h255 : e0.level ≤ 255) :
    ∃ eL ∈ db, eL.fid = fid ∧ biggestLevel db fid = some eL.level ∧
      (∀ e ∈ db, e.fid = fid → e.level ≤ 255 → e.level ≤ eL.level) := by
  set P : Entry T → Bool := fun e => decide (keyLe e.key (fid, 255, (⊤ : T), (⊤ : T)))
    with hP
  have he0f : e0 ∈ db.filter P := List.mem_filter.mpr
    ⟨he0, by simp [hP]; exact keyLe_probe fid e0 (Or.inr ⟨hf, h255⟩)⟩
  have hne : db.filter P ≠ [] := fun hnil => by simp [hnil] at he0f
  obtain ⟨L0, hL0⟩ : ∃ a, (db.filter P).getLast? = some a :=
    ⟨(db.filter P).getLast hne, List.getLast?_eq_getLast _ hne⟩
  have hL0mem : L0 ∈ db.filter P := List.mem_of_mem_getLast? hL0
  have hL0db : L0 ∈ db := (List.mem_filter.mp hL0mem).1
  have hL0le : L0.fid ≤ fid := fid_le_of_keyLe_probe fid L0
    (by have := (List.mem_filter.mp hL0mem).2; simpa [hP] using this)
  have hpw : (db.filter P).Pairwise (fun a b => keyLt a.key b.key) :=
    List.Pairwise.filter P hs
  have hfid : L0.fid = fid := by
    rcases pairwise_rel_getLast hpw he0f hL0 with rfl | hlt
    · exact hf
    · simp only [keyLt, Entry.key] at hlt
      rcases hlt with h | ⟨h, -⟩ <;> omega
  refine ⟨L0, hL0db, hfid, ?_, ?_⟩
  · unfold biggestLevel
    rw [← hP, hL0]
    simp [hfid]
  · intro e he hef hel
    have hefP : e ∈ db.filter P := List.mem_filter.mpr
      ⟨he, by simp [hP]; exact keyLe_probe fid e (Or.inr ⟨hef, hel⟩)⟩
    rcases pairwise_rel_getLast hpw hefP hL0 with rfl | hlt
    · exact Nat.le_refl _
    · simp only [keyLt, Entry.key] at hlt
      rcases hlt with h | ⟨-, h | ⟨h, -⟩⟩
      · omega
      · exact Nat.le_of_lt h
      · exact Nat.le_of_eq h

/-- **C7.** `evaluate_number_operator` discovers the field's maximum
level with the probe `≤ (field_id, 255, T::MAX, T::MAX)`: a field with
no facet entries yields `Ok` with the empty bitmap (an empty result is
not an error), and otherwise the descent starts at the maximum stored
level of the field. -/
theorem c7_level_discovery (db : List (Entry T)) (fid : Nat)
    (op : FacetNumberOperator T) (hs : sortedByKey db)
    (h255 : ∀ e ∈ db, e.level ≤ 255) :
    ((∀ e ∈ db, e.fid ≠ fid) →
      biggestLevel db fid = none ∧ evaluate_number_operator db fid op = ∅) ∧
    (∀ e0 ∈ db, e0.fid = fid →
      ∃ level, biggestLevel db fid = some level ∧
        (∀ e ∈ db, e.fid = fid → e.level ≤ level) ∧
        evaluate_number_operator db fid op =
          explore_facet_levels db fid level (specOperatorInterval op).1
            (specOperatorInterval op).2 ∅) := by
  constructor
  · intro hno
    have hb : biggestLevel db fid = none := by
      unfold biggestLevel
      cases hL : (db.filter (fun e =>
          decide (keyLe e.key (fid, 255, (⊤ : T), (⊤ : T))))).getLast? with
      | none => rfl
      | some L0 =>
        have hL0db : L0 ∈ db := (List.mem_filter.mp (List.mem_of_mem_getLast? hL)).1
        simp [hno L0 hL0db]
    refine ⟨hb, ?_⟩
    rw [evalNumber_normalized, hb]
  · intro e0 he0 hf
    obtain ⟨eL, hmem, hfid, hb, hmax⟩ :=
      biggestLevel_some_of_mem db fid hs he0 hf (h255 e0 he0)
    refine ⟨eL.level, hb, fun e he hef => hmax e he hef (h255 e he), ?_⟩
    rw [evalNumber_normalized, hb]

/-- Witness for C7: on the example store, field `0` is discovered at
maximum level `1`, and field `5`, which has no entries, evaluates to
the empty bitmap. -/
theorem c7_witness :
    (sortedByKey exDb ∧ (∀ e ∈ exDb, e.level ≤ 255)) ∧
    (biggestLevel exDb 5 = none ∧
      evaluate_number_operator exDb 5 (FacetNumberOperator.lowerThanOrEqual 7) = ∅) ∧
    (∃ level, biggestLevel exDb 0 = some level ∧
      (∀ e ∈ exDb, e.fid = 0 → e.level ≤ level) ∧
      evaluate_number_operator exDb 0 (FacetNumberOperator.lowerThanOrEqual 7) =
        explore_facet_levels exDb 0 level
          (specOperatorInterval (FacetNumberOperator.lowerThanOrEqual 7)).1
          (specOperatorInterval (FacetNumberOperator.lowerThanOrEqual 7)).2 ∅) :=
  ⟨⟨by decide, by decide⟩,
   (c7_level_discovery exDb 5 (FacetNumberOperator.lowerThanOrEqual 7)
      (by decide) (by decide)).1 (by decide),
   (c7_level_discovery exDb 0 (FacetNumberOperator.lowerThanOrEqual 7)
      (by decide) (by decide)).2 ⟨0, 0, 0, 0, {10}⟩ (by decide) rfl⟩

/-! ## C3: exact-equality queries restart at level 0 -/

/-- The level-0 point entry for value `v` of a field: the key
`(field_id, 0, v, v)`. -/
def exactKeyPred (fid : Nat) (v : T) (e : Entry T) : Bool :=
  decide (e.fid = fid) && decide (e.level = 0) && decide (e.low = v) && decide (e.high = v)

/-- An entry passes both iterator gates of a level-0 scan with bounds
`Included v` iff it belongs to the field at level 0 with `v ≤ low`. -/
theorem scan0_inner_iff (fid : Nat) (v : T) (e : Entry T) :
    (lowerGate (RBound.included v) fid 0 e && upperGate fid 0 e) = true ↔
      (e.fid = fid ∧ e.level = 0 ∧ v ≤ e.low) := by
  simp only [lowerGate, upperGate, Bool.and_eq_true, decide_eq_true_eq, keyLe, keyLt,
    Entry.key, Prod.ext_iff]
  constructor
  · rintro ⟨hl, hu⟩
    have hfid : e.fid = fid := by
      rcases hl with (h | ⟨h, -⟩) | ⟨h, -⟩ <;> rcases hu with (h2 | ⟨h2, -⟩) | ⟨h2, -⟩ <;> omega
    have hlvl : e.level = 0 := by
      rcases hl with (h | ⟨-, h⟩) | ⟨-, h, -⟩ <;> rcases hu with (h2 | ⟨-, h2⟩) | ⟨-, h2, -⟩ <;>
        omega
    refine ⟨hfid, hlvl, ?_⟩
    rcases hl with (h | ⟨-, h⟩) | ⟨-, -, h, -⟩
    · omega
    · rcases h with h | ⟨-, h⟩
      · omega
      · rcases h with h | ⟨h, -⟩
        · exact le_of_lt h
        · exact le_of_eq h
    · exact le_of_eq h
  · rintro ⟨hfid, hlvl, hle⟩
    constructor
    · rcases lt_or_eq_of_le hle with h | h
      · exact Or.inl (Or.inr ⟨hfid.symm, Or.inr ⟨hlvl.symm, Or.inl h⟩⟩)
      · rcases lt_or_eq_of_le (bot_le (a := e.high)) with h2 | h2
        · exact Or.inl (Or.inr ⟨hfid.symm, Or.inr ⟨hlvl.symm, Or.inr ⟨h, h2⟩⟩⟩)
        · exact Or.inr ⟨hfid.symm, hlvl.symm, h, h2⟩
    · rcases lt_or_eq_of_le (le_top (a := e.low)) with h | h
      · exact Or.inl (Or.inr ⟨hfid, Or.inr ⟨hlvl, Or.inl h⟩⟩)
      · rcases lt_or_eq_of_le (le_top (a := e.high)) with h2 | h2
        · exact Or.inl (Or.inr ⟨hfid, Or.inr ⟨hlvl, Or.inr ⟨h, h2⟩⟩⟩)
        · exact Or.inr ⟨hfid, hlvl, h, h2⟩

/-- The strict key order is irreflexive. -/
theorem keyLt_irrefl (k : Nat × Nat × T × T) : ¬ keyLt k k := by
  rintro (h | ⟨-, h | ⟨-, h | ⟨-, h⟩⟩⟩)
  · omega
  · omega
  · exact lt_irrefl _ h
  · exact lt_irrefl _ h

/-- On a sorted store whose level 0 holds point entries, the level-0
scan with bounds `Included v` returns exactly the point entries with
key `(field_id, 0, v, v)`. -/
theorem scan0_eq_filter (fid : Nat) (v : T) :
    ∀ db : List (Entry T), db.Pairwise (fun a b => keyLt a.key b.key) →
      (∀ e ∈ db, e.level = 0 → e.low = e.high) →
      scanLevel db fid 0 (RBound.included v) (RBound.included v) =
        db.filter (exactKeyPred fid v) := by
  intro db
  induction db with
  | nil => intro _ _; rfl
  | cons a t ih =>
    intro hp hinv
    have hinvt : ∀ e ∈ t, e.level = 0 → e.low = e.high :=
      fun e he => hinv e (List.mem_cons_of_mem a he)
    unfold scanLevel at *
    rw [List.filter_cons, List.filter_cons]
    by_cases hin : (lowerGate (RBound.included v) fid 0 a && upperGate fid 0 a) = true
    · rw [if_pos hin]
      obtain ⟨hf, hl, hle⟩ := (scan0_inner_iff fid v a).mp hin
      have hlh : a.low = a.high := hinv a (List.mem_cons_self a t) hl
      rw [List.takeWhile_cons]
      by_cases hg : rightGate (RBound.included v) a = true
      · have hhv : a.high = v :=
          le_antisymm (by simpa [rightGate] using hg) (hlh ▸ hle)
        have hp0 : exactKeyPred fid v a = true := by
          simp [exactKeyPred, hf, hl, hhv, hlh.trans hhv]
        rw [if_pos hg, if_pos hp0]
        exact congrArg (a :: ·) (ih hp.tail hinvt)
      · have hp0 : ¬(exactKeyPred fid v a = true) := by
          simp only [exactKeyPred, Bool.and_eq_true, decide_eq_true_eq]
          rintro ⟨⟨⟨-, -⟩, -⟩, hhigh⟩
          exact hg (by simp [rightGate, le_of_eq hhigh])
        rw [if_neg hg, if_neg hp0]
        symm
        rw [List.filter_eq_nil_iff]
        intro b hb hpb
        simp only [exactKeyPred, Bool.and_eq_true, decide_eq_true_eq] at hpb
        obtain ⟨⟨⟨hbf, hbl⟩, hblow⟩, hbhigh⟩ := hpb
        have hvlt : v < a.high := by
          rcases lt_or_le v a.high with h | h
          · exact h
          · exact absurd (by simp [rightGate, h]) hg
        have := List.rel_of_pairwise_cons hp hb
        simp only [keyLt, Entry.key] at this
        rcases this with h | ⟨-, h | ⟨-, h | ⟨h2, h3⟩⟩⟩
        · omega
        · omega
        · rw [hblow] at h
          exact absurd h (not_lt.mpr hle)
        · rw [hbhigh] at h3
          exact absurd h3 (not_lt.mpr hvlt.le)
    · rw [if_neg hin]
      have hp0 : ¬(exactKeyPred fid v a = true) := by
        simp only [exactKeyPred, Bool.and_eq_true, decide_eq_true_eq]
        rintro ⟨⟨⟨h1, h2⟩, h3⟩, -⟩
        exact hin ((scan0_inner_iff fid v a).mpr ⟨h1, h2, le_of_eq h3.symm⟩)
      rw [if_neg hp0]
      exact ih hp.tail hinvt

/-- When all matches of `p` share one key, the union over the filtered
store collapses to the single found entry's bitmap (or the empty one). -/
theorem unionDocids_filter_find (p : Entry T → Bool) :
    ∀ db : List (Entry T), db.Pairwise (fun a b => keyLt a.key b.key) →
      (∀ x ∈ db, p x = true → ∀ y ∈ db, p y = true → x.key = y.key) →
      unionDocids (db.filter p) =
        (match db.find? p with
         | some e => e.docids
         | none => ∅) := by
  intro db
  induction db with
  | nil => intro _ _; rfl
  | cons a t ih =>
    intro hp hkey
    rw [List.filter_cons]
    by_cases hpa : p a = true
    · rw [if_pos hpa, List.find?_cons_of_pos _ hpa]
      have hnil : t.filter p = [] := by
        rw [List.filter_eq_nil_iff]
        intro b hb hpb
        have heq : a.key = b.key := hkey a (List.mem_cons_self a t) hpa b
          (List.mem_cons_of_mem a hb) hpb
        exact keyLt_irrefl a.key (heq ▸ List.rel_of_pairwise_cons hp hb)
      simp [unionDocids, hnil]
    · rw [if_neg hpa, List.find?_cons_of_neg _ hpa]
      exact ih hp.tail (fun x hx hpx y hy hpy =>
        hkey x (List.mem_cons_of_mem a hx) hpx y (List.mem_cons_of_mem a hy) hpy)

/-- **C3.** With `left = right = Included v` and `level > 0`, the
resolver restarts immediately at level 0 with the same bounds; hence
`evaluate(EQ(v))` returns exactly the bitmap stored at the level-0 key
`(field_id, 0, v, v)`, or the empty bitmap if that key is absent,
regardless of the field's maximum level. -/
theorem c3_exact_equality (db : List (Entry T)) (fid : Nat) (v : T)
    (hs : sortedByKey db) (hinv : ∀ e ∈ db, e.level = 0 → e.low = e.high) :
    (∀ level, 0 < level → ∀ output,
      explore_facet_levels db fid level (RBound.included v) (RBound.included v) output =
        explore_facet_levels db fid 0 (RBound.included v) (RBound.included v) output) ∧
    evaluate_number_operator db fid (FacetNumberOperator.equal v) =
      (match db.find? (exactKeyPred fid v) with
       | some e => e.docids
       | none => ∅) := by
  have hx : exactEq (RBound.included v) (RBound.included v) = true := by simp [exactEq]
  constructor
  · intro level hlvl output
    rw [explore_facet_levels, dif_pos ⟨hx, hlvl⟩]
  · have hscan : explore_facet_levels db fid 0 (RBound.included v) (RBound.included v) ∅ =
        (match db.find? (exactKeyPred fid v) with
         | some e => e.docids
         | none => ∅) := by
      rw [explore_facet_levels,
        dif_neg (by rintro ⟨-, h⟩; exact absurd h (lt_irrefl 0)),
        if_neg (by simp [emptyIv])]
      simp only
      rw [scan0_eq_filter fid v db hs hinv,
        unionDocids_filter_find (exactKeyPred fid v) db hs ?_, Finset.empty_union]
      intro x _ hpx y _ hpy
      simp only [exactKeyPred, Bool.and_eq_true, decide_eq_true_eq] at hpx hpy
      simp [Entry.key, hpx.1.1.1, hpx.1.1.2, hpx.1.2, hpx.2,
        hpy.1.1.1, hpy.1.1.2, hpy.1.2, hpy.2]
    rw [evalNumber_normalized]
    cases hb : biggestLevel db fid with
    | none =>
      cases hfind : db.find? (exactKeyPred fid v) with
      | none => rfl
      | some e =>
        exfalso
        have hmem : e ∈ db := List.mem_of_find?_eq_some hfind
        have hpe := List.find?_some hfind
        simp only [exactKeyPred, Bool.and_eq_true, decide_eq_true_eq] at hpe
        obtain ⟨eL, -, -, hbs, -⟩ :=
          biggestLevel_some_of_mem db fid hs hmem hpe.1.1.1 (by omega)
        rw [hb] at hbs
        exact Option.noConfusion hbs
    | some level =>
      have : explore_facet_levels db fid level (RBound.included v) (RBound.included v) ∅ =
          explore_facet_levels db fid 0 (RBound.included v) (RBound.included v) ∅ := by
        match level with
        | 0 => rfl
        | l + 1 => rw [explore_facet_levels, dif_pos ⟨hx, Nat.succ_pos l⟩]
      simpa [specOperatorInterval] using this.trans hscan

/-- Witness for C3: on the example store (maximum level 1),
`EQ(2)` returns the level-0 bitmap `{12}` found at key `(0, 0, 2, 2)`. -/
theorem c3_witness :
    sortedByKey exDb ∧ (∀ e ∈ exDb, e.level = 0 → e.low = e.high) ∧
    evaluate_number_operator exDb 0 (FacetNumberOperator.equal 2) =
      (match exDb.find? (exactKeyPred 0 2) with
       | some e => e.docids
       | none => ∅) :=
  ⟨by decide, by decide,
    (c3_exact_equality exDb 0 2 (by decide) (by decide)).2⟩

/-! ## C9: ordering operators are rejected on string facets -/

/-- **C9.** When the attribute resolves to a String-faceted field, the
builder accepts only the equality forms (`eq`, and `neq` rewritten to
`Not(eq)`) and rejects every ordering operator (`<`, `≤`, `>`, `≥`,
`between`) with an "invalid operator on a faceted string" error that
carries the source span of the offending expression. -/
theorem c9_string_operator_policy {TI TF : Type}
    (fim : List (Nat × String)) (ff : List (Nat × FacetType))
    (parseI : String → Option TI) (parseF : String → Option TF)
    (item : ComparisonItem) (fid : Nat)
    (hid : fimId fim item.key = some fid)
    (hty : ffGet ff fid = some FacetType.string) :
    FacetCondition.fromComparison fim ff parseI parseF ComparisonRule.eq item =
      Except.ok (FacetCondition.operatorString fid
        (FacetStringOperator.equal item.value1)) ∧
    FacetCondition.fromComparison fim ff parseI parseF ComparisonRule.neq item =
      Except.ok (FacetCondition.not (FacetCondition.operatorString fid
        (FacetStringOperator.equal item.value1))) ∧
    (∀ rule, rule ≠ ComparisonRule.eq → rule ≠ ComparisonRule.neq →
      FacetCondition.fromComparison fim ff parseI parseF rule item =
        Except.error (invalidStringOperatorError item.span)) ∧
    (invalidStringOperatorError item.span).span = some item.span := by
  have hres : get_field_id_facet_type fim ff item.key item.keySpan =
      Except.ok (fid, FacetType.string) := by
    simp only [get_field_id_facet_type, hid, hty]
  refine ⟨?_, ?_, ?_, rfl⟩
  · simp only [FacetCondition.fromComparison, FacetCondition.equal, hres]
  · simp only [FacetCondition.fromComparison, FacetCondition.equal, hres, Except.map]
  · intro rule h1 h2
    cases rule
    · simp only [FacetCondition.fromComparison, FacetCondition.between, hres]
    · exact absurd rfl h1
    · exact absurd rfl h2
    · simp only [FacetCondition.fromComparison, FacetCondition.greater_than, hres]
    · simp only [FacetCondition.fromComparison, FacetCondition.greater_than_or_equal, hres]
    · simp only [FacetCondition.fromComparison, FacetCondition.lower_than, hres]
    · simp only [FacetCondition.fromComparison, FacetCondition.lower_than_or_equal, hres]

/-- Witness for C9 at a concrete catalog: attribute `brand` is field
`9` of type String; `eq` builds, `between` is rejected with the
expression's span. -/
theorem c9_witness :
    fimId [(9, "brand")] "brand" = some 9 ∧
    ffGet [(9, FacetType.string)] 9 = some FacetType.string ∧
    @FacetCondition.fromComparison Int Int [(9, "brand")]
        [(9, FacetType.string)] (fun _ => none) (fun _ => none) ComparisonRule.between
        ⟨⟨0, 17⟩, "brand", ⟨0, 5⟩, "acme", "zeta"⟩ =
      Except.error (invalidStringOperatorError ⟨0, 17⟩) :=
  ⟨by decide, by decide,
    (c9_string_operator_policy [(9, "brand")] [(9, FacetType.string)]
      (fun _ => none) (fun _ => none) ⟨⟨0, 17⟩, "brand", ⟨0, 5⟩, "acme", "zeta"⟩ 9
      (by decide) (by decide)).2.2.1 ComparisonRule.between
      (by simp) (by simp)⟩

/-! ## C1: hierarchical vs. flat evaluation

On the example store — which satisfies every §3 level invariant — the
query `GT(0)` is resolved at the top level with lower iterator bound
`Excluded (0, 1, 0, T::MIN)`.  The summary `(0, 1, 0, 1)` compares
strictly greater than that bound (its `high` differs), so the scan
unions its bitmap even though it contains value `0`, which the
operator excludes.  The refinement interval `[Excluded 0, Excluded 0)`
is empty, so nothing corrects the over-approximation: document `10`
(value `0`) is returned. -/

/-- **C1 (refuted by the code).** The hierarchical descent is *not*
extensionally equal to naive flat evaluation over level 0: on `exDb`
(which satisfies the level invariants), `GT(0)` returns
`{10, 11, 12, 13}` while flat evaluation over level 0 gives
`{11, 12, 13}`. -/
theorem c1_hierarchical_ne_flat :
    levelInvariants exDb ∧
    evaluate_number_operator exDb 0 (FacetNumberOperator.greaterThan 0) =
      {10, 11, 12, 13} ∧
    flatNumberEval exDb 0 (FacetNumberOperator.greaterThan 0) = {11, 12, 13} ∧
    evaluate_number_operator exDb 0 (FacetNumberOperator.greaterThan 0) ≠
      flatNumberEval exDb 0 (FacetNumberOperator.greaterThan 0) := by
  refine ⟨by decide, ?_, by decide, ?_⟩
  · rw [evalNumber_fuel]
    decide
  · rw [evalNumber_fuel]
    decide

end Facet
